import Mathlib

/-!
Shallow embedding of the precatório-correction calculator
(repository `calc-precatorio-tjsp`): the decimal arithmetic kernel and tax
resolver of `app.py`, the period/correction engine of `app_4.py`, and the
CSV-backed index provider of `indices_provider.py`.  Python `Decimal` values
are modelled as exact rationals (the spec demands full working precision with
no intermediate rounding); money quantization to cents is modelled explicitly
with the two rounding modes the sources use (`ROUND_HALF_EVEN` in `app.py`,
`ROUND_HALF_UP` in `app_4.py`).
-/

/-! ### Decimal arithmetic kernel (`app.py`, `app_4.py`) -/

/-- Round a rational to an integer, ties to the even neighbour
(Python `ROUND_HALF_EVEN`). -/
def roundHalfEven (x : ℚ) : ℤ :=
  let f := ⌊x⌋
  let r := x - f
  if r < 1/2 then f
  else if 1/2 < r then f + 1
  else if 2 ∣ f then f else f + 1

/-- Round a rational to an integer, ties away from zero
(Python `ROUND_HALF_UP`). -/
def roundHalfUp (x : ℚ) : ℤ :=
  if 0 ≤ x then ⌊x + 1/2⌋ else -⌊1/2 - x⌋

/-- `app.py` `quantize_cents`: quantize to two decimal places with
`ROUND_HALF_EVEN`. -/
def quantize_cents (x : ℚ) : ℚ :=
  (roundHalfEven (100 * x) : ℚ) / 100

/-- `app_4.py` `q2`: quantize to two decimal places with `ROUND_HALF_UP`. -/
def q2 (x : ℚ) : ℚ :=
  (roundHalfUp (100 * x) : ℚ) / 100

/-- `app.py` `compose_factors`: left-to-right product of
`1 + rate + extra_monthly_rate` over the series, starting from `1`. -/
def compose_factors (series : List ℚ) (extra_monthly_rate : ℚ) : ℚ :=
  series.foldl (fun total m => total * (1 + m + extra_monthly_rate)) 1

/-- Modelled from the spec (`annual_to_monthly_rate` contract): a monthly
rate `r` is *exactly* equivalent to the annual rate `a` when compounding it
twelve times reproduces `1 + a`, i.e. `(1+r)^12 = 1+a` — the defining
equation of `(1+a)^(1/12) − 1`.  The source `app.py` instead computes
`Decimal((1 + float(a)) ** (1/12)) - 1`, routing through binary floating
point, which the spec explicitly forbids. -/
def exact_monthly_rate (a r : ℚ) : Prop :=
  (1 + r) ^ (12 : ℕ) = 1 + a

instance (a r : ℚ) : Decidable (exact_monthly_rate a r) :=
  inferInstanceAs (Decidable (_ = _))

/-! ### Tax resolver (`app.py` `calcular_ir`) -/

/-- `app.py` `FaixaIR`: one income-tax bracket — ceiling (`ate`),
rate (`aliquota`) and subtractive deduction (`parcela_deduzir`). -/
structure FaixaIR where
  ate : ℚ
  aliquota : ℚ
  parcela_deduzir : ℚ
deriving DecidableEq, Repr

/-- Key used by `sorted(tabela_ir, key=lambda f: f.ate)`. -/
def faixaLe (a b : FaixaIR) : Prop := a.ate ≤ b.ate

instance : DecidableRel faixaLe := fun a b =>
  inferInstanceAs (Decidable (a.ate ≤ b.ate))

instance : IsTotal FaixaIR faixaLe := ⟨fun a b => le_total a.ate b.ate⟩

instance : IsTrans FaixaIR faixaLe := ⟨fun _ _ _ hab hbc => le_trans hab hbc⟩

/-- `app.py` `calcular_ir`: income-tax resolution by mode.
`modo` is the policy tag; the pair returned is `(valor_ir, aviso_opcional)`.
The Python guard `not ir_rate or ir_rate <= 0` is true exactly when
`ir_rate` is `None` or `≤ 0` (a zero `Decimal` is falsy). -/
def calcular_ir (modo : String) (base_juros : ℚ) (ir_rate : Option ℚ)
    (tabela_ir : Option (List FaixaIR)) : ℚ × Option String :=
  if modo = "Não" then (0, none)
  else if modo = "Percentual informado" then
    match ir_rate with
    | none =>
        (0, some "incide_ir='Percentual informado' mas 'ir_rate' não foi informado (>0).")
    | some r =>
        if r ≤ 0 then
          (0, some "incide_ir='Percentual informado' mas 'ir_rate' não foi informado (>0).")
        else (quantize_cents (base_juros * r), none)
  else if modo = "RRA" ∨ modo = "Tabela progressiva" then
    match tabela_ir with
    | none =>
        (0, some ("incide_ir='" ++ modo ++ "' mas 'tabela_ir' não foi fornecida. IR=0 aplicado."))
    | some tabela =>
        if tabela.length = 0 then
          (0, some ("incide_ir='" ++ modo ++ "' mas 'tabela_ir' não foi fornecida. IR=0 aplicado."))
        else
          let faixas := List.insertionSort faixaLe tabela
          let faixa_aplicada :=
            match faixas.find? (fun f => decide (base_juros ≤ f.ate)) with
            | some f => f
            | none => faixas.getLastD ⟨0, 0, 0⟩
          let ir := base_juros * faixa_aplicada.aliquota - faixa_aplicada.parcela_deduzir
          let ir := if ir < 0 then 0 else ir
          (quantize_cents ir, none)
  else (0, some "Modo de IR desconhecido.")

/-! ### Index provider (`indices_provider.py`) -/

/-- `indices_provider.py` `_load`, lines 49–54: the defensive conversion
applied to every parsed monthly variation — values with absolute value
`≥ 0.02` are assumed to be in percent and divided by `100`. -/
def conversao_defensiva (val : ℚ) : ℚ :=
  if 2/100 ≤ |val| then val / 100 else val

/-- First-match lookup in the provider cache; the cache list is built with
the most recent write at the head, so this matches the Python dict
(last write wins). -/
def cacheLookup (cache : List ((String × ℤ × ℤ) × ℚ)) (k : String × ℤ × ℤ) :
    Option ℚ :=
  match cache with
  | [] => none
  | p :: rest => if p.1 = k then some p.2 else cacheLookup rest k

/-- `indices_provider.py` `_load`: ingest parsed rows
`(indice, ano, mes, variacao)` into the cache, applying the defensive
conversion.  Rows are consed so that a later row for the same key shadows an
earlier one, as with the Python dict assignment. -/
def load_rows (rows : List (String × ℤ × ℤ × ℚ)) :
    List ((String × ℤ × ℤ) × ℚ) :=
  rows.foldl (fun acc r => ((r.1, r.2.1, r.2.2.1), conversao_defensiva r.2.2.2) :: acc) []

/-! ### Dates at month granularity (`app_4.py`, `datetime.date` day-1 values) -/

/-- A Python `date(y, m, 1)` value as used throughout `app_4.py` and
`indices_provider.py`: the day is always `1`, and `datetime.date` validates
`1 ≤ m ≤ 12` at construction. -/
structure MonthKey where
  y : ℤ
  m : ℤ
  hm1 : 1 ≤ m
  hm2 : m ≤ 12

/-- `datetime.date` comparison restricted to day-1 dates: lexicographic on
`(year, month)`. -/
def MonthKey.lt (a b : MonthKey) : Prop :=
  a.y < b.y ∨ (a.y = b.y ∧ a.m < b.m)

instance (a b : MonthKey) : Decidable (MonthKey.lt a b) :=
  inferInstanceAs (Decidable (_ ∨ _))

/-- Strict lexicographic order on raw `(year, month)` tuples (Python tuple
comparison, as in `pos_fim_tuple > (last_y, last_m)`). -/
def tupleLt (a b : ℤ × ℤ) : Prop :=
  a.1 < b.1 ∨ (a.1 = b.1 ∧ a.2 < b.2)

instance (a b : ℤ × ℤ) : Decidable (tupleLt a b) :=
  inferInstanceAs (Decidable (_ ∨ _))

/-- Linear month index `12*y + (m-1)`; two valid `MonthKey`s compare under
`MonthKey.lt` exactly as their indices compare (proved below). -/
def monthIdx (d : MonthKey) : ℤ := 12 * d.y + (d.m - 1)

/-- `app_4.py` `add_months`: `y' = y + (m-1+n) // 12`, `m' = (m-1+n) % 12 + 1`
(Python floor division and modulo by the positive constant `12` coincide with
`Int.ediv`/`Int.emod`). -/
def add_months (d : MonthKey) (n : ℤ) : MonthKey where
  y := d.y + (d.m - 1 + n) / 12
  m := (d.m - 1 + n) % 12 + 1
  hm1 := by omega
  hm2 := by omega

/-- `app_4.py` `month_range`: repeated add-one-month stepping from `start`
while strictly before `end_exclusive`, collecting `(year, month)` tuples. -/
def month_range (start end_exclusive : MonthKey) : List (ℤ × ℤ) :=
  if h : MonthKey.lt start end_exclusive then
    (start.y, start.m) :: month_range (add_months start 1) end_exclusive
  else []
  termination_by (monthIdx end_exclusive - monthIdx start).toNat
  decreasing_by
    have h1 := start.hm1
    have h2 := start.hm2
    have h3 := end_exclusive.hm1
    have h4 := end_exclusive.hm2
    simp only [MonthKey.lt, monthIdx, add_months] at *
    omega

/-- `app_4.py` `first_day_next_month`. -/
def first_day_next_month (d : MonthKey) : MonthKey :=
  add_months d 1

/-! ### Index table (`app_4.py` `Indices`) -/

/-- `app_4.py` `Indices`: the `(ano, mes) -> multiplicador` dictionary.
`from_csv` builds it with distinct keys (a Python dict), so a first-match
association-list lookup is faithful. -/
structure Indices where
  fator_mensal : List ((ℤ × ℤ) × ℚ)
deriving DecidableEq

/-- Dictionary lookup `self.fator_mensal[(y, m)]` (with the membership test
`(y, m) in self.fator_mensal`). -/
def Indices.lookup (ind : Indices) (k : ℤ × ℤ) : Option ℚ :=
  go ind.fator_mensal
where
  go : List ((ℤ × ℤ) × ℚ) → Option ℚ
  | [] => none
  | p :: rest => if p.1 = k then some p.2 else go rest

/-- Errors raised by `app_4.py` (`KeyError` / `ValueError` sites). -/
inductive CalcErr where
  /-- `Indices.product`: `KeyError(f"Faltou IPCA-E para {y}-{m}")`. -/
  | faltou (k : ℤ × ℤ)
  /-- `main`: `KeyError("--pos-fim ... não existe (último=...)")`. -/
  | posFimInexistente (pf last : ℤ × ℤ)
  /-- `max()` over an empty key set (`ValueError`); unreachable after
  `from_csv`, which rejects an empty table. -/
  | semIndices
  /-- `date(y, m, 1)` constructor rejecting an out-of-range month. -/
  | dataInvalida (k : ℤ × ℤ)
deriving DecidableEq

/-- `app_4.py` `Indices.product` accumulator loop: `prod *= f`, raising on
the first month absent from the table. -/
def productAux (ind : Indices) (prod : ℚ) : List (ℤ × ℤ) → Except CalcErr ℚ
  | [] => Except.ok prod
  | k :: ks =>
    match ind.lookup k with
    | none => Except.error (CalcErr.faltou k)
    | some f => productAux ind (prod * f) ks

/-- `app_4.py` `Indices.product`: product of the table factors over the
given `(ano, mes)` list, starting from `1`. -/
def Indices.product (ind : Indices) (ym_list : List (ℤ × ℤ)) : Except CalcErr ℚ :=
  productAux ind 1 ym_list

/-- Python `max` on two `(year, month)` tuples (first argument kept on ties). -/
def tmax (a b : ℤ × ℤ) : ℤ × ℤ :=
  if tupleLt a b then b else a

/-- `app_4.py` `Indices.last_available_month`: `max(self.fator_mensal.keys())`;
`none` models the `ValueError` Python `max` raises on an empty dict. -/
def Indices.lastAvailableMonth (ind : Indices) : Option (ℤ × ℤ) :=
  match ind.fator_mensal.map Prod.fst with
  | [] => none
  | k :: ks => some (ks.foldl tmax k)

/-! ### Period segmenter (`app_4.py`) -/

/-- Checked `date(y, m, 1)` construction (Python raises `ValueError` on a
month outside `1..12`). -/
def mkMonthKey (y m : ℤ) : Option MonthKey :=
  if h : 1 ≤ m ∧ m ≤ 12 then some ⟨y, m, h.1, h.2⟩ else none

/-- `app_4.py` `periodos_antes_formacao`: `07/(ano_venc-1) .. 12/(ano_venc)`
inclusive, returned as `(inclusive start, exclusive end)`. -/
def periodos_antes_formacao (ano_venc : ℤ) : MonthKey × MonthKey :=
  (⟨ano_venc - 1, 7, by norm_num, by norm_num⟩,
   first_day_next_month ⟨ano_venc, 12, by norm_num, by norm_num⟩)

/-- `app_4.py` `periodos_antes_full`: `07/(ano_venc-1) .. 11/2021` inclusive. -/
def periodos_antes_full (ano_venc : ℤ) : MonthKey × MonthKey :=
  (⟨ano_venc - 1, 7, by norm_num, by norm_num⟩,
   ⟨2021, 12, by norm_num, by norm_num⟩)

/-- `app_4.py` `periodo_pos`: `12/2021 .. pos_fim` inclusive; when `pos_fim`
is absent it defaults to the last month available in the table. -/
def periodo_pos (pos_fim : Option (ℤ × ℤ)) (indices : Indices) :
    Except CalcErr (MonthKey × MonthKey) :=
  match (match pos_fim with
         | some t => Except.ok t
         | none =>
           match indices.lastAvailableMonth with
           | some t => Except.ok t
           | none => Except.error CalcErr.semIndices : Except CalcErr (ℤ × ℤ)) with
  | Except.error e => Except.error e
  | Except.ok pf =>
    match mkMonthKey pf.1 pf.2 with
    | none => Except.error (CalcErr.dataInvalida pf)
    | some dpf =>
      Except.ok (⟨2021, 12, by norm_num, by norm_num⟩, first_day_next_month dpf)

/-! ### Correction engine (`app_4.py` `calcular`) -/

/-- `app_4.py` `Resultado`. -/
structure Resultado where
  fator_antes : ℚ
  fator_ipca_pos : ℚ
  fator_juros_simples_pos : ℚ
  fator_total_principal : ℚ
  principal_final : ℚ
  jm_ant_corrigido : ℚ
  total_corrigido : ℚ
  meses_antes : ℕ
  meses_pos : ℕ
deriving DecidableEq, Repr

/-- `app_4.py` line 183: `n_meses_para_2aa = max(n_pos - 1, 0)`. -/
def n_meses_para_2aa (n_pos : ℕ) : ℤ :=
  max ((n_pos : ℤ) - 1) 0

/-- `app_4.py` line 184: the simple-interest multiplier
`1 + juros_aa_pos * n_meses_para_2aa / 12`. -/
def fator_juros_simples (juros_aa_pos : ℚ) (n_pos : ℕ) : ℚ :=
  1 + juros_aa_pos * (n_meses_para_2aa n_pos : ℚ) / 12

/-- `app_4.py` `calcular`, lines 181–223: the pure tail of the calculation
once both period factors and month counts are known (prints omitted). -/
def calcular_core (principal juros_aa_pos juros_mora_ant : ℚ)
    (fator_antes fator_ipca_pos : ℚ) (n_antes n_pos : ℕ) : Resultado :=
  let fator_juros_simples_pos := fator_juros_simples juros_aa_pos n_pos
  let principal_apos_antes := q2 (principal * fator_antes)
  let principal_pos_ipca := q2 (principal_apos_antes * fator_ipca_pos)
  let principal_final := q2 (principal_pos_ipca * fator_juros_simples_pos)
  let jm_ant_base := juros_mora_ant
  let jm_ant_apos_antes := q2 (jm_ant_base * fator_antes)
  let jm_ant_corrigido := q2 (jm_ant_apos_antes * fator_ipca_pos * fator_juros_simples_pos)
  let total_corrigido := q2 (principal_final + jm_ant_corrigido)
  { fator_antes := fator_antes
    fator_ipca_pos := fator_ipca_pos
    fator_juros_simples_pos := fator_juros_simples_pos
    fator_total_principal := fator_antes * fator_ipca_pos * fator_juros_simples_pos
    principal_final := principal_final
    jm_ant_corrigido := jm_ant_corrigido
    total_corrigido := total_corrigido
    meses_antes := n_antes
    meses_pos := n_pos }

/-- `app_4.py` `calcular`, factor-resolution blocks (lines 167–179): an
override replaces the whole period product; otherwise the product of the
table factors over the period months, `1` for an empty month list. -/
def resolve_fator (indices : Indices) (override : Option ℚ)
    (meses : List (ℤ × ℤ)) : Except CalcErr ℚ :=
  match override with
  | some f => Except.ok f
  | none =>
    if meses.isEmpty then Except.ok (1 : ℚ)
    else indices.product meses

/-- `app_4.py` `calcular`: period selection, month enumeration, factor
resolution (override or table product, `1` for an empty month list), then the
pure tail `calcular_core`. -/
def calcular (principal : ℚ) (ano_venc : ℤ) (indices : Indices)
    (pos_fim : Option (ℤ × ℤ)) (juros_aa_pos : ℚ) (juros_mora_ant : ℚ)
    (antes_mode : String) (override_antes : Option ℚ)
    (override_pos_ipca : Option ℚ) : Except CalcErr Resultado := do
  let pa := if antes_mode = "full" then periodos_antes_full ano_venc
            else periodos_antes_formacao ano_venc
  let meses_antes := month_range pa.1 pa.2
  let pp ← periodo_pos pos_fim indices
  let meses_pos := month_range pp.1 pp.2
  let fator_antes ← resolve_fator indices override_antes meses_antes
  let fator_ipca_pos ← resolve_fator indices override_pos_ipca meses_pos
  Except.ok (calcular_core principal juros_aa_pos juros_mora_ant
    fator_antes fator_ipca_pos meses_antes.length meses_pos.length)

/-- `app_4.py` `main`, lines 254–273: resolution of the post-period end
month against the last month available in the table.  Returns the resolved
`(year, month)` tuple and the optional informational notice printed by the
`--clip-pos` branch. -/
def resolve_pos_fim (pos_fim_tuple : Option (ℤ × ℤ)) (clip_pos : Bool)
    (indices : Indices) : Except CalcErr ((ℤ × ℤ) × Option String) :=
  match indices.lastAvailableMonth with
  | none => Except.error CalcErr.semIndices
  | some last =>
    match pos_fim_tuple with
    | some pf =>
      if tupleLt last pf then
        if clip_pos then
          Except.ok (last, some ("Aviso: --pos-fim " ++ toString pf.1 ++ "-"
            ++ toString pf.2 ++ " não existe no CSV; ajustei para "
            ++ toString last.1 ++ "-" ++ toString last.2 ++ "."))
        else Except.error (CalcErr.posFimInexistente pf last)
      else Except.ok (pf, none)
    | none => Except.ok (last, none)

/-! ### Index series retrieval (`indices_provider.py` `get_series`) -/

/-- The inline month stepping of `get_series`
(`ny = ...; nm = ...; cur = date(ny, nm, 1)`). -/
def provStep (d : MonthKey) : MonthKey where
  y := d.y + (if d.m = 12 then 1 else 0)
  m := if d.m = 12 then 1 else d.m + 1
  hm1 := by have := d.hm1; split <;> omega
  hm2 := by have := d.hm2; split <;> omega

/-- `indices_provider.py` `IndicesProvider.get_series`: walk the months of
`[start, end_exclusive)`, failing with the absent `(indice, ano, mes)` key
when a month is missing from the cache, otherwise collecting the monthly
variations in chronological order. -/
def get_series (cache : List ((String × ℤ × ℤ) × ℚ)) (indice : String)
    (start end_exclusive : MonthKey) : Except (String × ℤ × ℤ) (List ℚ) :=
  if h : MonthKey.lt start end_exclusive then
    match cacheLookup cache (indice, start.y, start.m) with
    | none => Except.error (indice, start.y, start.m)
    | some v =>
      (get_series cache indice (provStep start) end_exclusive).map (fun l => v :: l)
  else Except.ok []
  termination_by (monthIdx end_exclusive - monthIdx start).toNat
  decreasing_by
    have h1 := start.hm1
    have h2 := start.hm2
    have h3 := end_exclusive.hm1
    have h4 := end_exclusive.hm2
    simp only [MonthKey.lt, monthIdx, provStep] at *
    split <;> omega

/-- Linear month index of a raw `(year, month)` tuple, used to state that an
enumerated month sequence has no gaps. -/
def pairIdx (k : ℤ × ℤ) : ℤ := 12 * k.1 + (k.2 - 1)

/-! ## Helper lemmas -/

theorem MonthKey.ext_ym {a b : MonthKey} (hy : a.y = b.y) (hm : a.m = b.m) :
    a = b := by
  cases a; cases b; cases hy; cases hm; rfl

theorem monthIdx_add_months (d : MonthKey) (n : ℤ) :
    monthIdx (add_months d n) = monthIdx d + n := by
  simp only [monthIdx, add_months]
  omega

theorem monthIdx_inj {a b : MonthKey} (h : monthIdx a = monthIdx b) : a = b := by
  have h1 := a.hm1; have h2 := a.hm2; have h3 := b.hm1; have h4 := b.hm2
  simp only [monthIdx] at h
  exact MonthKey.ext_ym (by omega) (by omega)

theorem MonthKey.lt_iff_idx {a b : MonthKey} :
    MonthKey.lt a b ↔ monthIdx a < monthIdx b := by
  have h1 := a.hm1; have h2 := a.hm2; have h3 := b.hm1; have h4 := b.hm2
  simp only [MonthKey.lt, monthIdx]
  omega

theorem add_months_zero (d : MonthKey) : add_months d 0 = d :=
  monthIdx_inj (by rw [monthIdx_add_months]; ring)

theorem add_months_add (d : MonthKey) (i j : ℤ) :
    add_months (add_months d i) j = add_months d (i + j) :=
  monthIdx_inj (by rw [monthIdx_add_months, monthIdx_add_months, monthIdx_add_months]; ring)

theorem provStep_eq_add_months (d : MonthKey) : provStep d = add_months d 1 := by
  refine monthIdx_inj ?_
  rw [monthIdx_add_months]
  have h1 := d.hm1; have h2 := d.hm2
  simp only [monthIdx, provStep]
  split <;> omega

theorem foldl_mul_factor (extra : ℚ) :
    ∀ (l : List ℚ) (a : ℚ),
      l.foldl (fun total m => total * (1 + m + extra)) a
        = a * (l.map (fun r => 1 + r + extra)).prod
  | [], a => by simp
  | x :: xs, a => by
    rw [List.foldl_cons, foldl_mul_factor extra xs, List.map_cons, List.prod_cons,
      mul_assoc]

theorem mem_load_rows_aux (p : (String × ℤ × ℤ) × ℚ) :
    ∀ (rows : List (String × ℤ × ℤ × ℚ)) (acc : List ((String × ℤ × ℤ) × ℚ)),
      p ∈ rows.foldl
          (fun acc r => ((r.1, r.2.1, r.2.2.1), conversao_defensiva r.2.2.2) :: acc) acc →
        p ∈ acc ∨ ∃ r ∈ rows, p = ((r.1, r.2.1, r.2.2.1), conversao_defensiva r.2.2.2)
  | [], acc => fun h => Or.inl h
  | r :: rs, acc => by
    intro h
    rcases mem_load_rows_aux p rs _ h with hacc | ⟨r', hr', hp⟩
    · rcases List.mem_cons.mp hacc with hp | hacc
      · exact Or.inr ⟨r, List.mem_cons_self r rs, hp⟩
      · exact Or.inl hacc
    · exact Or.inr ⟨r', List.mem_cons_of_mem r hr', hp⟩

/-- C5: `compose_factors` returns the left-to-right product of
`(1 + rate_i + extra)` at full precision with no per-month rounding, returns
exactly `1` on the empty sequence, and an empty period with zero extra rate
leaves any principal unchanged after cents quantization. -/
theorem C5_compose_factors (series : List ℚ) (extra : ℚ) :
    compose_factors series extra = (series.map (fun r => 1 + r + extra)).prod
    ∧ compose_factors [] extra = 1
    ∧ ∀ P : ℚ, quantize_cents (P * compose_factors [] 0) = quantize_cents P := by
  refine ⟨?_, rfl, ?_⟩
  · rw [compose_factors, foldl_mul_factor, one_mul]
  · intro P
    show quantize_cents (P * 1) = quantize_cents P
    rw [mul_one]

/-- C9: the index provider's defensive conversion stores `v/100` whenever
`|v| ≥ 0.02` and `v` unchanged only when `|v| < 0.02`; consequently a
supplied monthly variation `v` with `0.02 ≤ |v| < 2` is never stored (hence
never returned) as supplied, and every cached value is the conversion image
of some supplied row. -/
theorem C9_conversao_defensiva (v : ℚ) :
    (2/100 ≤ |v| → conversao_defensiva v = v / 100)
    ∧ (|v| < 2/100 → conversao_defensiva v = v)
    ∧ (2/100 ≤ |v| → |v| < 2 → conversao_defensiva v ≠ v)
    ∧ ∀ (rows : List (String × ℤ × ℤ × ℚ)) (p : (String × ℤ × ℤ) × ℚ),
        p ∈ load_rows rows →
          ∃ r ∈ rows, p = ((r.1, r.2.1, r.2.2.1), conversao_defensiva r.2.2.2) := by
  refine ⟨?_, ?_, ?_, ?_⟩
  · intro h; simp [conversao_defensiva, h]
  · intro h; simp [conversao_defensiva, not_le.mpr h]
  · intro h _ hcontra
    rw [conversao_defensiva, if_pos h] at hcontra
    have hv : v = 0 := by linarith [hcontra]
    rw [hv] at h
    norm_num at h
  · intro rows p hp
    rcases mem_load_rows_aux p rows [] hp with hacc | hex
    · simp at hacc
    · exact hex

/-- C9 witness: the supplied variation `0.05` (meaning 5 %/month as a
fraction) is stored as `0.0005`, not as supplied. -/
theorem C9_witness :
    conversao_defensiva (5/100) = (5/100) / 100
    ∧ conversao_defensiva (5/100) ≠ 5/100 :=
  by
  have habs : |(5/100 : ℚ)| = 5/100 := abs_of_nonneg (by norm_num)
  exact ⟨(C9_conversao_defensiva (5/100)).1 (by rw [habs]; norm_num),
    (C9_conversao_defensiva (5/100)).2.2.1 (by rw [habs]; norm_num)
      (by rw [habs]; norm_num)⟩

/-- C10: the CLI calculator clamps the simple-interest month count at zero
(`max(n_pos - 1, 0)`), so a zero-month post period yields a factor of exactly
`1` (not `1 − r/12`), and for every non-negative annual rate the factor is
at least `1`. -/
theorem C10_simple_factor_clamped (r : ℚ) (n : ℕ) (hr : 0 ≤ r) :
    fator_juros_simples r 0 = 1
    ∧ (0 < r → fator_juros_simples r 0 ≠ 1 - r / 12)
    ∧ 1 ≤ fator_juros_simples r n := by
  have h0 : fator_juros_simples r 0 = 1 := by
    simp [fator_juros_simples, n_meses_para_2aa]
  refine ⟨h0, ?_, ?_⟩
  · intro hrpos
    rw [h0]
    intro hcontra
    have : r / 12 = 0 := by linarith
    have : r = 0 := by linarith [this]
    linarith
  · rw [fator_juros_simples]
    have hm : (0 : ℚ) ≤ (n_meses_para_2aa n : ℚ) := by
      have : (0 : ℤ) ≤ n_meses_para_2aa n := le_max_right _ _
      exact_mod_cast this
    nlinarith

/-- C10 witness: at rate `0.02` the factor for a zero-month period is `1`,
and the factor for a five-month period is at least `1`. -/
theorem C10_witness :
    fator_juros_simples (2/100) 0 = 1
    ∧ 1 ≤ fator_juros_simples (2/100) 5 :=
  ⟨(C10_simple_factor_clamped (2/100) 5 (by norm_num)).1,
   (C10_simple_factor_clamped (2/100) 5 (by norm_num)).2.2⟩

/-- C6: for every policy tag other than the recognized ones, the tax
resolver returns tax `0` together with the "unrecognized policy" notice
(`"Modo de IR desconhecido."`); it never returns a zero tax silently. -/
theorem C6_unrecognized_policy (modo : String) (base : ℚ) (rate : Option ℚ)
    (tabela : Option (List FaixaIR))
    (h : modo ∉ ["Não", "Percentual informado", "RRA", "Tabela progressiva"]) :
    calcular_ir modo base rate tabela = (0, some "Modo de IR desconhecido.") := by
  simp only [List.mem_cons, List.mem_singleton, not_or] at h
  obtain ⟨h1, h2, h3, h4⟩ := h
  rw [calcular_ir.eq_def, if_neg h1, if_neg h2, if_neg (by simp [h3, h4])]

/-- C6 witness: the unrecognized tag `"flat"` yields zero tax with the
notice. -/
theorem C6_witness :
    calcular_ir "flat" 0 none none = (0, some "Modo de IR desconhecido.") :=
  C6_unrecognized_policy "flat" 0 none none (by decide)

theorem month_range_eq_map (s e : MonthKey) :
    month_range s e
      = (List.range (monthIdx e - monthIdx s).toNat).map
          (fun (i : ℕ) => ((add_months s (i : ℤ)).y, (add_months s (i : ℤ)).m)) := by
  generalize hn : (monthIdx e - monthIdx s).toNat = n
  induction n generalizing s with
  | zero =>
    have hnlt : ¬ MonthKey.lt s e := by
      rw [MonthKey.lt_iff_idx]; omega
    rw [month_range, dif_neg hnlt]
    simp
  | succ k ih =>
    have hlt : MonthKey.lt s e := by
      rw [MonthKey.lt_iff_idx]; omega
    have hk : (monthIdx e - monthIdx (add_months s 1)).toNat = k := by
      rw [monthIdx_add_months]; omega
    rw [month_range, dif_pos hlt, ih (add_months s 1) hk,
      List.range_succ_eq_map, List.map_cons, List.map_map]
    refine congrArg₂ List.cons ?_ ?_
    · rw [show ((0 : ℕ) : ℤ) = 0 from rfl, add_months_zero]
    · refine List.map_congr_left fun i _ => ?_
      rw [Function.comp_apply, add_months_add,
        show ((Nat.succ i : ℕ) : ℤ) = 1 + (i : ℤ) by push_cast; ring]

theorem month_range_pairwise (s e : MonthKey) :
    List.Pairwise tupleLt (month_range s e) := by
  rw [month_range_eq_map]
  refine List.Pairwise.map _ ?_ (List.pairwise_lt_range _)
  intro a b hab
  have hlt : MonthKey.lt (add_months s (a : ℤ)) (add_months s (b : ℤ)) := by
    rw [MonthKey.lt_iff_idx, monthIdx_add_months, monthIdx_add_months]
    omega
  simpa [tupleLt, MonthKey.lt] using hlt

/-- C8: the month-range enumeration is a finite sequence of `(year, month)`
keys — its length is the month distance between the endpoints — strictly
increasing in `(year, month)` order, and empty when `start ≥ end`. -/
theorem C8_month_range_finite_increasing (s e : MonthKey) :
    (month_range s e).length = (monthIdx e - monthIdx s).toNat
    ∧ List.Pairwise tupleLt (month_range s e)
    ∧ (¬ MonthKey.lt s e → month_range s e = []) := by
  refine ⟨?_, month_range_pairwise s e, ?_⟩
  · rw [month_range_eq_map, List.length_map, List.length_range]
  · intro h
    rw [month_range, dif_neg h]

/-- C8 witness: a degenerate range whose start equals its end is empty. -/
theorem C8_witness :
    month_range ⟨2022, 5, by norm_num, by norm_num⟩ ⟨2022, 5, by norm_num, by norm_num⟩
      = [] :=
  (C8_month_range_finite_increasing _ _).2.2 (by decide)

theorem get_series_missing (cache : List ((String × ℤ × ℤ) × ℚ)) (ind : String)
    (e : MonthKey) :
    ∀ (n : ℕ) (s : MonthKey), (monthIdx e - monthIdx s).toNat = n →
      (∃ k ∈ month_range s e, cacheLookup cache (ind, k.1, k.2) = none) →
      ∃ k ∈ month_range s e,
        get_series cache ind s e = Except.error (ind, k.1, k.2)
          ∧ cacheLookup cache (ind, k.1, k.2) = none := by
  intro n
  induction n with
  | zero =>
    intro s hn hmiss
    have hnlt : ¬ MonthKey.lt s e := by rw [MonthKey.lt_iff_idx]; omega
    rw [month_range, dif_neg hnlt] at hmiss
    simp at hmiss
  | succ k ih =>
    intro s hn hmiss
    have hlt : MonthKey.lt s e := by rw [MonthKey.lt_iff_idx]; omega
    have hrw : month_range s e = (s.y, s.m) :: month_range (add_months s 1) e := by
      rw [month_range, dif_pos hlt]
    cases hc : cacheLookup cache (ind, s.y, s.m) with
    | none =>
      refine ⟨(s.y, s.m), ?_, ?_, hc⟩
      · rw [hrw]; exact List.mem_cons_self _ _
      · rw [get_series, dif_pos hlt, hc]
    | some v =>
      have hmiss' : ∃ k' ∈ month_range (add_months s 1) e,
          cacheLookup cache (ind, k'.1, k'.2) = none := by
        rcases hmiss with ⟨k0, hk0, hk0none⟩
        rw [hrw] at hk0
        rcases List.mem_cons.mp hk0 with rfl | hk0'
        · rw [hc] at hk0none; cases hk0none
        · exact ⟨k0, hk0', hk0none⟩
      have hk1 : (monthIdx e - monthIdx (add_months s 1)).toNat = k := by
        rw [monthIdx_add_months]; omega
      rcases ih (add_months s 1) hk1 hmiss' with ⟨k0, hk0mem, hk0err, hk0none⟩
      refine ⟨k0, ?_, ?_, hk0none⟩
      · rw [hrw]; exact List.mem_cons_of_mem _ hk0mem
      · rw [get_series, dif_pos hlt, hc, provStep_eq_add_months, hk0err]
        rfl

theorem get_series_total (cache : List ((String × ℤ × ℤ) × ℚ)) (ind : String)
    (e : MonthKey) :
    ∀ (n : ℕ) (s : MonthKey), (monthIdx e - monthIdx s).toNat = n →
      (∀ k ∈ month_range s e, cacheLookup cache (ind, k.1, k.2) ≠ none) →
      get_series cache ind s e
        = Except.ok ((month_range s e).map
            (fun k => (cacheLookup cache (ind, k.1, k.2)).getD 0)) := by
  intro n
  induction n with
  | zero =>
    intro s hn _
    have hnlt : ¬ MonthKey.lt s e := by rw [MonthKey.lt_iff_idx]; omega
    rw [get_series, dif_neg hnlt, month_range, dif_neg hnlt]
    rfl
  | succ k ih =>
    intro s hn hall
    have hlt : MonthKey.lt s e := by rw [MonthKey.lt_iff_idx]; omega
    have hrw : month_range s e = (s.y, s.m) :: month_range (add_months s 1) e := by
      rw [month_range, dif_pos hlt]
    cases hc : cacheLookup cache (ind, s.y, s.m) with
    | none =>
      exact absurd hc (by rw [hrw] at hall; exact hall (s.y, s.m) (List.mem_cons_self _ _))
    | some v =>
      have hk1 : (monthIdx e - monthIdx (add_months s 1)).toNat = k := by
        rw [monthIdx_add_months]; omega
      have hall' : ∀ k0 ∈ month_range (add_months s 1) e,
          cacheLookup cache (ind, k0.1, k0.2) ≠ none := by
        intro k0 hk0
        exact hall k0 (by rw [hrw]; exact List.mem_cons_of_mem _ hk0)
      rw [get_series, dif_pos hlt, hc, provStep_eq_add_months, ih (add_months s 1) hk1 hall',
        hrw, List.map_cons]
      simp [Except.map, hc]

theorem month_range_chain (s e : MonthKey) :
    List.Chain' (fun a b => pairIdx b = pairIdx a + 1) (month_range s e) := by
  rw [month_range_eq_map]
  rw [List.chain'_map]
  have hidx : ∀ i : ℕ, pairIdx ((add_months s (i : ℤ)).y, (add_months s (i : ℤ)).m)
      = monthIdx s + i := by
    intro i
    show monthIdx (add_months s (i : ℤ)) = monthIdx s + i
    rw [monthIdx_add_months]
  cases hn : (monthIdx e - monthIdx s).toNat with
  | zero => simp
  | succ n =>
    rw [List.chain'_range_succ]
    intro m _
    rw [hidx, hidx]
    push_cast
    ring

/-- C2: if any month of the half-open range `[start, end)` is absent from the
index cache, `get_series` fails with an error identifying the absent key and
produces no partial series; when every month is present it returns exactly
the cached values of the enumerated months, which are in chronological order
with no gaps and no duplicates. -/
theorem C2_series_resolution (cache : List ((String × ℤ × ℤ) × ℚ)) (ind : String)
    (s e : MonthKey) :
    ((∃ k ∈ month_range s e, cacheLookup cache (ind, k.1, k.2) = none) →
      ∃ k ∈ month_range s e,
        get_series cache ind s e = Except.error (ind, k.1, k.2)
          ∧ cacheLookup cache (ind, k.1, k.2) = none)
    ∧ ((∀ k ∈ month_range s e, cacheLookup cache (ind, k.1, k.2) ≠ none) →
      get_series cache ind s e
        = Except.ok ((month_range s e).map
            (fun k => (cacheLookup cache (ind, k.1, k.2)).getD 0)))
    ∧ List.Pairwise tupleLt (month_range s e)
    ∧ List.Chain' (fun a b => pairIdx b = pairIdx a + 1) (month_range s e) :=
  ⟨get_series_missing cache ind e _ s rfl,
   get_series_total cache ind e _ s rfl,
   month_range_pairwise s e,
   month_range_chain s e⟩

/-- C2 witness: with only 2021-12 cached, requesting `[2021-12, 2022-02)`
fails identifying the absent month 2022-01. -/
theorem C2_witness :
    ∃ k ∈ month_range ⟨2021, 12, by norm_num, by norm_num⟩
        ⟨2022, 2, by norm_num, by norm_num⟩,
      get_series [(("IPCA-E", 2021, 12), 5/1000)] "IPCA-E"
          ⟨2021, 12, by norm_num, by norm_num⟩ ⟨2022, 2, by norm_num, by norm_num⟩
        = Except.error ("IPCA-E", k.1, k.2)
      ∧ cacheLookup [(("IPCA-E", 2021, 12), 5/1000)] ("IPCA-E", k.1, k.2) = none :=
  (C2_series_resolution [(("IPCA-E", 2021, 12), 5/1000)] "IPCA-E"
    ⟨2021, 12, by norm_num, by norm_num⟩ ⟨2022, 2, by norm_num, by norm_num⟩).1
    (by rw [month_range_eq_map]; decide)

theorem not_tupleLt_trans {a b c : ℤ × ℤ} (h1 : ¬ tupleLt a b) (h2 : ¬ tupleLt b c) :
    ¬ tupleLt a c := by
  obtain ⟨a1, a2⟩ := a; obtain ⟨b1, b2⟩ := b; obtain ⟨c1, c2⟩ := c
  simp only [tupleLt] at *
  omega

theorem foldl_tmax_mem : ∀ (ks : List (ℤ × ℤ)) (k : ℤ × ℤ), ks.foldl tmax k ∈ k :: ks
  | [], k => List.mem_singleton_self k
  | k' :: ks, k => by
    have h := foldl_tmax_mem ks (tmax k k')
    have hmem : tmax k k' = k ∨ tmax k k' = k' := by
      rw [tmax]; split
      · exact Or.inr rfl
      · exact Or.inl rfl
    rcases List.mem_cons.mp h with heq | hmem'
    · rcases hmem with h' | h' <;> rw [List.foldl_cons, heq, h'] <;> simp
    · rw [List.foldl_cons]
      exact List.mem_cons_of_mem _ (List.mem_cons_of_mem _ hmem')

theorem foldl_tmax_ub : ∀ (ks : List (ℤ × ℤ)) (k g : ℤ × ℤ), g ∈ k :: ks →
    ¬ tupleLt (ks.foldl tmax k) g
  | [], k, g => by
    intro hg
    rw [List.mem_singleton.mp hg]
    obtain ⟨k1, k2⟩ := k
    simp [tupleLt]
  | k' :: ks, k, g => by
    intro hg
    rw [List.foldl_cons]
    have hk : ¬ tupleLt (tmax k k') k := by
      rw [tmax]; split
      · next h' =>
        obtain ⟨k1, k2⟩ := k; obtain ⟨k1', k2'⟩ := k'
        simp only [tupleLt] at *
        omega
      · obtain ⟨k1, k2⟩ := k
        simp [tupleLt]
    have hk' : ¬ tupleLt (tmax k k') k' := by
      rw [tmax]; split
      · obtain ⟨k1', k2'⟩ := k'
        simp [tupleLt]
      · next h' =>
        obtain ⟨k1, k2⟩ := k; obtain ⟨k1', k2'⟩ := k'
        simp only [tupleLt] at *
        omega
    have hub : ¬ tupleLt (ks.foldl tmax (tmax k k')) (tmax k k') :=
      foldl_tmax_ub ks (tmax k k') (tmax k k') (List.mem_cons_self _ _)
    rcases List.mem_cons.mp hg with rfl | hg'
    · exact not_tupleLt_trans hub hk
    · rcases List.mem_cons.mp hg' with rfl | hg'' 
      · exact not_tupleLt_trans hub hk'
      · exact foldl_tmax_ub ks (tmax k k') g (List.mem_cons_of_mem _ hg'')

theorem lastAvailableMonth_spec {ind : Indices} {last : ℤ × ℤ}
    (hlast : ind.lastAvailableMonth = some last) :
    last ∈ ind.fator_mensal.map Prod.fst
    ∧ ∀ k ∈ ind.fator_mensal.map Prod.fst, ¬ tupleLt last k := by
  rw [Indices.lastAvailableMonth] at hlast
  cases hks : ind.fator_mensal.map Prod.fst with
  | nil => rw [hks] at hlast; cases hlast
  | cons k0 ks =>
    rw [hks] at hlast
    have hlast' : ks.foldl tmax k0 = last := by
      injection hlast
    rw [← hlast']
    exact ⟨foldl_tmax_mem ks k0, fun g hg => foldl_tmax_ub ks k0 g hg⟩

/-- C7: when the requested post-period end month lies strictly after the last
month available in the index table, `main`'s resolution fails identifying the
missing month unless the clamp-down opt-in (`--clip-pos`) is set, in which
case it resolves to the last available month with an informational notice;
when no end is supplied it defaults to the last available month.  `last` is
genuinely the maximum key of the table. -/
theorem C7_pos_fim_resolution (ind : Indices) (last pf : ℤ × ℤ) (clip : Bool)
    (hlast : ind.lastAvailableMonth = some last) (hgt : tupleLt last pf) :
    resolve_pos_fim (some pf) false ind
      = Except.error (CalcErr.posFimInexistente pf last)
    ∧ resolve_pos_fim (some pf) true ind
        = Except.ok (last, some ("Aviso: --pos-fim " ++ toString pf.1 ++ "-"
            ++ toString pf.2 ++ " não existe no CSV; ajustei para "
            ++ toString last.1 ++ "-" ++ toString last.2 ++ "."))
    ∧ resolve_pos_fim none clip ind = Except.ok (last, none)
    ∧ last ∈ ind.fator_mensal.map Prod.fst
    ∧ ∀ k ∈ ind.fator_mensal.map Prod.fst, ¬ tupleLt last k := by
  have hspec := lastAvailableMonth_spec hlast
  refine ⟨?_, ?_, ?_, hspec.1, hspec.2⟩ <;>
    rw [resolve_pos_fim, hlast] <;> simp [hgt]

/-- C7 witness: with last available month 2022-01 and requested end 2025-10,
resolution fails without the opt-in and defaults to 2022-01 when no end is
supplied. -/
theorem C7_witness :
    resolve_pos_fim (some (2025, 10)) false
        ⟨[((2021, 12), 5/1000), ((2022, 1), 3/1000)]⟩
      = Except.error (CalcErr.posFimInexistente (2025, 10) (2022, 1))
    ∧ resolve_pos_fim none false ⟨[((2021, 12), 5/1000), ((2022, 1), 3/1000)]⟩
      = Except.ok ((2022, 1), none) := by
  have h := C7_pos_fim_resolution ⟨[((2021, 12), 5/1000), ((2022, 1), 3/1000)]⟩
    (2022, 1) (2025, 10) false (by decide) (by decide)
  exact ⟨h.1, h.2.2.1⟩

theorem except_bind_ok {ε α β : Type} (a : α) (f : α → Except ε β) :
    (Except.ok a >>= f) = f a := rfl

theorem except_bind_error {ε α β : Type} (e : ε) (f : α → Except ε β) :
    ((Except.error e : Except ε α) >>= f) = Except.error e := rfl

theorem calcular_ok_shape (principal : ℚ) (ano_venc : ℤ) (ind : Indices)
    (pf : Option (ℤ × ℤ)) (jaa jma : ℚ) (mode : String) (oa op : Option ℚ)
    (res : Resultado)
    (h : calcular principal ano_venc ind pf jaa jma mode oa op = Except.ok res) :
    ∃ fa fp na np, res = calcular_core principal jaa jma fa fp na np := by
  rw [calcular] at h
  simp only [bind, Except.bind] at h
  rcases hpp : periodo_pos pf ind with e | pp <;> rw [hpp] at h <;> dsimp only at h
  · cases h
  · rcases hra : resolve_fator ind oa
        (month_range
          (if mode = "full" then periodos_antes_full ano_venc
            else periodos_antes_formacao ano_venc).1
          (if mode = "full" then periodos_antes_full ano_venc
            else periodos_antes_formacao ano_venc).2) with e1 | fa <;>
      rw [hra] at h <;> dsimp only at h
    · cases h
    · rcases hrp : resolve_fator ind op (month_range pp.1 pp.2) with e2 | fp <;>
        rw [hrp] at h <;> dsimp only at h
      · cases h
      · injection h with h2
        exact ⟨_, _, _, _, h2.symm⟩

/-- C4: whenever `calcular` succeeds and the post period has `n ≥ 1` months,
the simple-interest policy contributes exactly one extra multiplier
`1 + rate_annual * (n - 1) / 12`, applied once after (not blended into) the
post-period index product, and the final principal is the three-step
quantization chain `q2(q2(q2(P * f_antes) * f_ipca_pos) * f_simples)`. -/
theorem C4_simple_interest_once (principal : ℚ) (ano_venc : ℤ) (ind : Indices)
    (pf : Option (ℤ × ℤ)) (jaa jma : ℚ) (mode : String) (oa op : Option ℚ)
    (res : Resultado)
    (h : calcular principal ano_venc ind pf jaa jma mode oa op = Except.ok res)
    (hn : 1 ≤ res.meses_pos) :
    res.fator_juros_simples_pos = 1 + jaa * ((res.meses_pos : ℚ) - 1) / 12
    ∧ res.principal_final
        = q2 (q2 (q2 (principal * res.fator_antes) * res.fator_ipca_pos)
            * res.fator_juros_simples_pos) := by
  obtain ⟨fa, fp, na, np, rfl⟩ :=
    calcular_ok_shape principal ano_venc ind pf jaa jma mode oa op res h
  simp only [calcular_core] at hn ⊢
  constructor
  · rw [fator_juros_simples, n_meses_para_2aa,
      max_eq_left (show (0:ℤ) ≤ (np : ℤ) - 1 by omega)]
    push_cast
    ring
  · trivial

/-- C4 witness: a concrete run (overridden factors, post period 2021-12 of one
month) satisfying the simple-interest multiplier and quantization-chain
equations. -/
theorem C4_witness :
    (calcular_core 1000 (2/100) 0 (27/25) (6/5) 5 1).fator_juros_simples_pos
      = 1 + (2/100)
          * (((calcular_core 1000 (2/100) 0 (27/25) (6/5) 5 1).meses_pos : ℚ) - 1) / 12
    ∧ (calcular_core 1000 (2/100) 0 (27/25) (6/5) 5 1).principal_final
      = q2 (q2 (q2 (1000 * (calcular_core 1000 (2/100) 0 (27/25) (6/5) 5 1).fator_antes)
          * (calcular_core 1000 (2/100) 0 (27/25) (6/5) 5 1).fator_ipca_pos)
          * (calcular_core 1000 (2/100) 0 (27/25) (6/5) 5 1).fator_juros_simples_pos) := by
  refine C4_simple_interest_once 1000 2022 ⟨[]⟩ (some (2021, 12)) (2/100) 0 "full"
    (some (27/25)) (some (6/5)) (calcular_core 1000 (2/100) 0 (27/25) (6/5) 5 1) ?_ ?_
  · have hma : month_range (periodos_antes_full 2022).1 (periodos_antes_full 2022).2
        = [(2021, 7), (2021, 8), (2021, 9), (2021, 10), (2021, 11)] := by
      rw [month_range_eq_map]; decide
    have hpp : periodo_pos (some (2021, 12)) ⟨[]⟩
        = Except.ok ((⟨2021, 12, by norm_num, by norm_num⟩ : MonthKey),
            first_day_next_month ⟨2021, 12, by norm_num, by norm_num⟩) := rfl
    have hmp : month_range (⟨2021, 12, by norm_num, by norm_num⟩ : MonthKey)
        (first_day_next_month ⟨2021, 12, by norm_num, by norm_num⟩) = [(2021, 12)] := by
      rw [month_range_eq_map]; decide
    rw [calcular]
    simp only [bind, Except.bind]
    rw [hpp]
    dsimp only [resolve_fator]
    simp only [if_true, hma, hmp]
    rfl
  · norm_num [calcular_core]

theorem find?_sorted_min (base : ℚ) :
    ∀ (l : List FaixaIR), l.Sorted faixaLe →
      ∀ {f : FaixaIR}, l.find? (fun g => decide (base ≤ g.ate)) = some f →
        base ≤ f.ate ∧ ∀ g ∈ l, base ≤ g.ate → f.ate ≤ g.ate
  | [], _, f, hf => by cases hf
  | x :: xs, hs, f, hf => by
    by_cases hpx : base ≤ x.ate
    · rw [List.find?_cons_of_pos _ (by simpa using hpx)] at hf
      injection hf with hf
      subst hf
      refine ⟨hpx, fun g hg _ => ?_⟩
      rcases List.mem_cons.mp hg with rfl | hg'
      · exact le_refl _
      · exact List.rel_of_sorted_cons hs g hg'
    · rw [List.find?_cons_of_neg _ (by simpa using hpx)] at hf
      obtain ⟨hbf, hmin⟩ := find?_sorted_min base xs (List.sorted_cons.mp hs).2 hf
      refine ⟨hbf, fun g hg hbg => ?_⟩
      rcases List.mem_cons.mp hg with rfl | hg'
      · exact absurd hbg hpx
      · exact hmin g hg' hbg

theorem getLastD_mem_cons_faixa :
    ∀ (l : List FaixaIR) (x d : FaixaIR), (x :: l).getLastD d ∈ x :: l
  | [], x, d => by simp
  | y :: t, x, d => by
    rw [List.getLastD_cons]
    exact List.mem_cons_of_mem x (getLastD_mem_cons_faixa t y d)

theorem sorted_getLastD_max :
    ∀ (l : List FaixaIR) (x d : FaixaIR), (x :: l).Sorted faixaLe →
      ∀ g ∈ x :: l, faixaLe g ((x :: l).getLastD d)
  | [], x, d, _, g, hg => by
    rcases List.mem_singleton.mp hg with rfl
    simp [List.getLastD, faixaLe]
  | y :: t, x, d, hs, g, hg => by
    rw [List.getLastD_cons]
    rcases List.mem_cons.mp hg with hgx | hg'
    · rw [hgx]
      exact List.rel_of_sorted_cons hs _ (getLastD_mem_cons_faixa t y x)
    · exact sorted_getLastD_max t y x (List.sorted_cons.mp hs).2 g hg'

theorem if_neg_lt_eq_max (x : ℚ) : (if x < 0 then (0:ℚ) else x) = max 0 x := by
  rcases lt_or_le x 0 with hx | hx
  · rw [if_pos hx, max_eq_left hx.le]
  · rw [if_neg (not_lt.mpr hx), max_eq_right hx]

theorem calcular_ir_bracket_eq (modo : String)
    (hm : modo = "RRA" ∨ modo = "Tabela progressiva") (base : ℚ)
    (rate : Option ℚ) (tabela : List FaixaIR) (hlen : tabela.length ≠ 0) :
    calcular_ir modo base rate (some tabela)
      = (quantize_cents (max 0 (base
          * (((List.insertionSort faixaLe tabela).find?
                (fun f => decide (base ≤ f.ate))).getD
              ((List.insertionSort faixaLe tabela).getLastD ⟨0, 0, 0⟩)).aliquota
          - (((List.insertionSort faixaLe tabela).find?
                (fun f => decide (base ≤ f.ate))).getD
              ((List.insertionSort faixaLe tabela).getLastD ⟨0, 0, 0⟩)).parcela_deduzir)),
        none) := by
  have h1 : ¬ modo = "Não" := by rcases hm with rfl | rfl <;> decide
  have h2 : ¬ modo = "Percentual informado" := by rcases hm with rfl | rfl <;> decide
  rw [calcular_ir.eq_def, if_neg h1, if_neg h2, if_pos hm]
  dsimp only
  rw [if_neg hlen]
  cases hfind : (List.insertionSort faixaLe tabela).find?
      (fun f => decide (base ≤ f.ate)) with
  | some f0 => rw [Option.getD_some, if_neg_lt_eq_max]
  | none => rw [Option.getD_none, if_neg_lt_eq_max]

/-- C1: for every bracket-table tax computation (modes `RRA` and
`Tabela progressiva`) with a non-empty table and base ≥ 0, the applied
bracket is a member of the table; when some ceiling is ≥ the base it is the
least such ceiling (the first qualifying bracket of the ascending sort), and
when the base exceeds every ceiling it is the greatest ceiling; the returned
tax is `quantize_cents (max 0 (base*rate − deduction))` with no notice.  In
particular, for the table `[(2000, 0.075, 0), (10^9, 0.275, 750)]` and base
5000 the result is 625.00. -/
theorem C1_bracket_table (base : ℚ) (tabela : List FaixaIR)
    (hbase : 0 ≤ base) (htab : tabela ≠ []) :
    (∃ f ∈ tabela,
      ((∃ g ∈ tabela, base ≤ g.ate) →
        base ≤ f.ate ∧ ∀ g ∈ tabela, base ≤ g.ate → f.ate ≤ g.ate)
      ∧ ((∀ g ∈ tabela, ¬ base ≤ g.ate) → ∀ g ∈ tabela, g.ate ≤ f.ate)
      ∧ calcular_ir "RRA" base none (some tabela)
          = (quantize_cents (max 0 (base * f.aliquota - f.parcela_deduzir)), none)
      ∧ calcular_ir "Tabela progressiva" base none (some tabela)
          = (quantize_cents (max 0 (base * f.aliquota - f.parcela_deduzir)), none))
    ∧ calcular_ir "RRA" 5000 none
        (some [⟨2000, 75/1000, 0⟩, ⟨1000000000, 275/1000, 750⟩]) = (625, none) := by
  constructor
  · have hlen : tabela.length ≠ 0 := fun hl => htab (List.length_eq_zero.mp hl)
    have hsorted : List.Sorted faixaLe (List.insertionSort faixaLe tabela) :=
      List.sorted_insertionSort faixaLe tabela
    have hperm : List.Perm (List.insertionSort faixaLe tabela) tabela :=
      List.perm_insertionSort faixaLe tabela
    have heqR := calcular_ir_bracket_eq "RRA" (Or.inl rfl) base none tabela hlen
    have heqT := calcular_ir_bracket_eq "Tabela progressiva" (Or.inr rfl) base none
      tabela hlen
    cases hfind : (List.insertionSort faixaLe tabela).find?
        (fun f => decide (base ≤ f.ate)) with
    | some f0 =>
      rw [hfind, Option.getD_some] at heqR heqT
      have hf := find?_sorted_min base (List.insertionSort faixaLe tabela) hsorted hfind
      refine ⟨f0, hperm.mem_iff.mp (List.mem_of_find?_eq_some hfind), ?_, ?_, heqR, heqT⟩
      · exact fun _ => ⟨hf.1, fun g hg hbg => hf.2 g (hperm.mem_iff.mpr hg) hbg⟩
      · intro hall
        exact absurd hf.1
          (hall f0 (hperm.mem_iff.mp (List.mem_of_find?_eq_some hfind)))
    | none =>
      rw [hfind, Option.getD_none] at heqR heqT
      have hnone : ∀ g ∈ List.insertionSort faixaLe tabela, ¬ base ≤ g.ate := by
        intro g hg
        have := List.find?_eq_none.mp hfind g hg
        simpa using this
      obtain ⟨y, ys, hfy⟩ : ∃ y ys, List.insertionSort faixaLe tabela = y :: ys := by
        cases hc : List.insertionSort faixaLe tabela with
        | nil =>
          exfalso
          apply htab
          have := hperm.length_eq
          rw [hc] at this
          exact List.length_eq_zero.mp this.symm
        | cons y ys => exact ⟨y, ys, rfl⟩
      have hmemlast : (List.insertionSort faixaLe tabela).getLastD ⟨0, 0, 0⟩ ∈ tabela := by
        rw [hfy]
        exact hperm.mem_iff.mp (by rw [hfy] at hperm ⊢; exact getLastD_mem_cons_faixa ys y _)
      refine ⟨(List.insertionSort faixaLe tabela).getLastD ⟨0, 0, 0⟩, hmemlast,
        ?_, ?_, heqR, heqT⟩
      · rintro ⟨g, hg, hbg⟩
        exact absurd hbg (hnone g (hperm.mem_iff.mpr hg))
      · intro _ g hg
        have : faixaLe g ((List.insertionSort faixaLe tabela).getLastD ⟨0, 0, 0⟩) := by
          rw [hfy]
          rw [hfy] at hsorted
          exact sorted_getLastD_max ys y ⟨0, 0, 0⟩ hsorted g
            (by rw [← hfy]; exact hperm.mem_iff.mpr hg)
        exact this
  · rw [calcular_ir_bracket_eq "RRA" (Or.inl rfl) 5000 none _ (by norm_num)]
    norm_num [List.insertionSort, List.orderedInsert, faixaLe, List.find?,
      Option.getD, max_def, quantize_cents, roundHalfEven, Rat.floor_def]

/-- C1 witness: the spec's two-bracket example — base 5000 selects the
high-ceiling bracket and yields 625.00. -/
theorem C1_witness :
    calcular_ir "RRA" 5000 none
        (some [⟨2000, 75/1000, 0⟩, ⟨1000000000, 275/1000, 750⟩]) = (625, none) :=
  (C1_bracket_table 5000 [⟨2000, 75/1000, 0⟩, ⟨1000000000, 275/1000, 750⟩]
    (by norm_num) (by simp)).2

/-- C3: no value expressible in decimal working precision (i.e. no rational)
satisfies the exact compounding equation `(1+r)^12 = 1 + a` at the
repository's default annual rate `a = 0.06`; every finite-precision result of
`annual_to_monthly_rate` is therefore an approximation, and the source's
`Decimal((1 + float(a)) ** (1/12)) - 1` narrows it further to 53-bit binary
precision, which the spec explicitly forbids. -/
theorem C3_no_exact_rational_rate (r : ℚ) :
    exact_monthly_rate (6/100) r = False := by
  simp only [eq_iff_iff, iff_false]
  intro hr
  rw [exact_monthly_rate] at hr
  have h53 : (1 + r) ^ (12 : ℕ) = (53/50 : ℚ) := by rw [hr]; norm_num
  have hnum : (1 + r).num ^ (12 : ℕ) = 53 := by
    rw [← Rat.num_pow, h53]
    norm_num
  rcases le_or_lt 2 |(1 + r).num| with h2 | h2
  · have hp : (2 : ℤ) ^ (12 : ℕ) ≤ |(1 + r).num| ^ (12 : ℕ) :=
      pow_le_pow_left₀ (by norm_num) h2 12
    rw [← abs_pow, hnum] at hp
    norm_num at hp
  · have habs := abs_lt.mp h2
    have hn : (1 + r).num = -1 ∨ (1 + r).num = 0 ∨ (1 + r).num = 1 := by omega
    rcases hn with hn | hn | hn <;> rw [hn] at hnum <;> norm_num at hnum
